import Mathlib

/-!
Shallow embedding of the `todo-track` tool (Rust sources under
`src/todo-track/src/`) and proofs about its specification.

Conventions of the embedding:
* Rust `String`/`&str` values become Lean `String` (or `List Char` where the
  code walks characters); `PathBuf` becomes `String` (the code stores paths
  via `to_string_lossy`).
* `usize`/`i64` become `Nat`/`Int`; the database layer stores `i64`, so
  stored fields use `Int`.
* The `regex` crate patterns are embedded operationally with leftmost-first
  matching and greedy backtracking, exactly following the two patterns in
  `parser.rs`.  Character classes (`\w`, `\s`, `\d`, case folding) are
  modelled on their ASCII fragment, which covers every input the claims
  mention.
* SQLite is modelled as an explicit record of tables; the `BEGIN` /
  `COMMIT` / `ROLLBACK` discipline of `save_snapshot` is modelled by
  returning the pre-transaction state whenever a row insert fails.
  Failure of a row insert is injected through an explicit `failAt` fault
  parameter (the Rust code surfaces any `rusqlite` insert error the same
  way).
-/

namespace TodoTrack

/-! ## Character classes (ASCII fragment of the regex classes) -/

/-- The `\s` class (and Rust `char::is_whitespace` on ASCII). -/
def isSpaceChar (c : Char) : Bool :=
  c == ' ' || c == '\t' || c == '\n' || c == '\r' || c == '\x0b' || c == '\x0c'

/-- The `\w` class used by the `\b` word-boundary assertion:
letters, digits and underscore. -/
def isWordChar (c : Char) : Bool :=
  decide (97 ≤ c.toNat ∧ c.toNat ≤ 122) ||
  decide (65 ≤ c.toNat ∧ c.toNat ≤ 90) ||
  decide (48 ≤ c.toNat ∧ c.toNat ≤ 57) ||
  decide (c.toNat = 95)

/-- ASCII upper-casing, the fragment of `(?i)` folding and
`str::to_uppercase` exercised by the keyword patterns. -/
def upcaseChar (c : Char) : Char :=
  if 97 ≤ c.toNat ∧ c.toNat ≤ 122 then Char.ofNat (c.toNat - 32) else c

/-- Rust `str::trim` on a character list. -/
def rustTrim (l : List Char) : List Char :=
  ((l.dropWhile isSpaceChar).reverse.dropWhile isSpaceChar).reverse

/-! ## `parser.rs`: data type and comment-marker test -/

/-- `parser.rs` `TodoItem`: a parsed marker from a single line. -/
structure TodoItem where
  line_number : Nat
  keyword : String
  author : Option String
  issue_ref : Option String
  description : String
deriving DecidableEq, Repr

/-- `parser.rs` `COMMENT_MARKERS`. -/
def COMMENT_MARKERS : List (List Char) :=
  [['/', '/'], ['#'], ['/', '*'], ['<', '!', '-', '-'], ['*'], ['-', '-']]

/-- Does `hay` start with `needle`? -/
def listStartsWith : List Char → List Char → Bool
  | _, [] => true
  | [], _ :: _ => false
  | c :: cs, d :: ds => c == d && listStartsWith cs ds

/-- Does `needle` occur as a contiguous substring of `hay`
(Rust `str::contains`)? -/
def listContainsSub : List Char → List Char → Bool
  | [], needle => needle.isEmpty
  | c :: rest, needle => listStartsWith (c :: rest) needle || listContainsSub rest needle

/-- `parser.rs` `line_has_comment_marker`: trim the line, then test whether
any fixed marker occurs anywhere as a substring. -/
def line_has_comment_marker (line : String) : Bool :=
  COMMENT_MARKERS.any (fun m => listContainsSub (rustTrim line.data) m)

/-! ## `parser.rs` `TODO_RE`: operational model of
`(?i)\b(TODO|FIXME|HACK|XXX)\b(?:\(([^)]+)\))?:?\s*(.+)`
with leftmost-first matching and greedy backtracking. -/

/-- The alternation `(TODO|FIXME|HACK|XXX)`, in pattern order. -/
def keywordList : List (List Char) :=
  [['T', 'O', 'D', 'O'], ['F', 'I', 'X', 'M', 'E'],
   ['H', 'A', 'C', 'K'], ['X', 'X', 'X']]

/-- Is the character at index `i` (if any) a word character? -/
def isWordAt (s : List Char) (i : Nat) : Bool :=
  match s[i]? with
  | some c => isWordChar c
  | none => false

/-- The `\b` assertion at position `i`: exactly one of the neighbouring
positions holds a word character. -/
def wordBoundary (s : List Char) (i : Nat) : Bool :=
  (if i = 0 then false else isWordAt s (i - 1)) != isWordAt s i

/-- Case-insensitive keyword match at position `p`. -/
def matchKwAt (s : List Char) : Nat → List Char → Bool
  | _, [] => true
  | p, k :: ks =>
    match s[p]? with
    | some c => upcaseChar c == k && matchKwAt s (p + 1) ks
    | none => false

/-- The run matched by a greedy `.+` starting at `r`: everything up to the
next newline or the end of input. -/
def dotRun (s : List Char) (r : Nat) : List Char :=
  (s.drop r).takeWhile (fun c => c != '\n')

/-- `(.+)` at position `r`: needs at least one non-newline character. -/
def dotPlus (s : List Char) (r : Nat) : Option (List Char) :=
  let d := dotRun s r
  if d.isEmpty then none else some d

/-- Length of the whitespace run at position `r` (the greedy extent of `\s*`). -/
def wsRunLen (s : List Char) (r : Nat) : Nat :=
  ((s.drop r).takeWhile isSpaceChar).length

/-- Backtracking for `\s*(.+)`: try consuming `k` whitespace characters,
largest first, until the trailing `.+` can match. -/
def tryDesc (s : List Char) (r : Nat) : Nat → Option (List Char)
  | 0 => dotPlus s r
  | k + 1 =>
    match dotPlus s (r + (k + 1)) with
    | some d => some d
    | none => tryDesc s r k

/-- `\s*(.+)` at position `r`. -/
def wsThenDesc (s : List Char) (r : Nat) : Option (List Char) :=
  tryDesc s r (wsRunLen s r)

/-- `:?\s*(.+)` at position `r`: the optional colon is tried greedily and
given up if the rest cannot match. -/
def colonWsDesc (s : List Char) (r : Nat) : Option (List Char) :=
  if s[r]? == some ':' then
    match wsThenDesc s (r + 1) with
    | some d => some d
    | none => wsThenDesc s r
  else wsThenDesc s r

/-- Captures of one `TODO_RE` match: the group-1 slice, the optional group-2
author text, and the group-3 description text. -/
structure RegexCaps where
  kwSlice : List Char
  author : Option (List Char)
  desc : List Char
deriving DecidableEq, Repr

/-- `(?:\(([^)]+)\))?:?\s*(.+)` at position `q`: the optional parenthesised
author group (whose body `[^)]+` is a nonempty run of non-`)` characters,
deterministic up to the closing `)`), falling back to matching without the
group if the remainder fails. -/
def groupTail (s : List Char) (q : Nat) : Option (Option (List Char) × List Char) :=
  let noGroup := (colonWsDesc s q).map (fun d => ((none : Option (List Char)), d))
  match s[q]? with
  | some '(' =>
    let content := (s.drop (q + 1)).takeWhile (fun c => c != ')')
    if decide (1 ≤ content.length) && (s[q + 1 + content.length]? == some ')') then
      match colonWsDesc s (q + 1 + content.length + 1) with
      | some d => some (some content, d)
      | none => noGroup
    else noGroup
  | _ => noGroup

/-- Try the whole pattern anchored at position `p` with keyword `kw`. -/
def tryKw (s : List Char) (p : Nat) (kw : List Char) : Option RegexCaps :=
  if matchKwAt s p kw && wordBoundary s (p + kw.length) then
    (groupTail s (p + kw.length)).map
      (fun ad => ⟨(s.drop p).take kw.length, ad.1, ad.2⟩)
  else none

/-- Try the keyword alternation, in pattern order, at position `p`. -/
def tryKws (s : List Char) (p : Nat) : List (List Char) → Option RegexCaps
  | [] => none
  | kw :: rest =>
    match tryKw s p kw with
    | some c => some c
    | none => tryKws s p rest

/-- The full pattern anchored at position `p` (the leading `\b`, then the
alternation). -/
def matchAt (s : List Char) (p : Nat) : Option RegexCaps :=
  if wordBoundary s p then tryKws s p keywordList else none

/-- Leftmost match: scan the anchor position left to right. -/
def findFrom (s : List Char) : Nat → Nat → Option RegexCaps
  | _, 0 => none
  | p, fuel + 1 =>
    match matchAt s p with
    | some c => some c
    | none => findFrom s (p + 1) fuel

/-- `TODO_RE.captures(line)`. -/
def todoCaptures (line : String) : Option RegexCaps :=
  findFrom line.data 0 (line.data.length + 1)

/-- `ISSUE_RE` = `#(\d+)`: first `#` followed by at least one digit; the
greedy capture is the maximal digit run; the code rebuilds the reference as
`#` followed by the captured digits. -/
def issueFind : List Char → Option String
  | [] => none
  | c :: rest =>
    if c == '#' then
      let digits := rest.takeWhile Char.isDigit
      if digits.isEmpty then issueFind rest else some (String.mk ('#' :: digits))
    else issueFind rest

/-- `parser.rs` `parse_line`. -/
def parse_line (line : String) (line_number : Nat) : Option TodoItem :=
  if line_has_comment_marker line then
    match todoCaptures line with
    | none => none
    | some caps =>
      let raw_description := String.mk (rustTrim caps.desc)
      some {
        line_number := line_number
        keyword := String.mk (caps.kwSlice.map upcaseChar)
        author := caps.author.map (fun a => String.mk (rustTrim a))
        issue_ref := issueFind raw_description.data
        description := raw_description }
  else none

/-! ## `scanner.rs` / `storage.rs`: data model of the snapshot store -/

/-- `scanner.rs` `FileTodo`: a parsed item plus its path relative to the
scan root (`PathBuf` stored via `to_string_lossy`). -/
structure FileTodo where
  file_path : String
  item : TodoItem
deriving DecidableEq, Repr

/-- `storage.rs` `Snapshot` row. -/
structure Snapshot where
  id : Int
  timestamp : String
  todo_count : Int
deriving DecidableEq, Repr

/-- `storage.rs` `StoredTodo` row. -/
structure StoredTodo where
  id : Int
  snapshot_id : Int
  file_path : String
  line_number : Int
  keyword : String
  author : Option String
  issue_ref : Option String
  description : String
  git_author : Option String
  git_date : Option String
deriving DecidableEq, Repr

/-- The SQLite database of `storage.rs`: the two tables plus the next
`INTEGER PRIMARY KEY` values the engine will assign. -/
structure DB where
  snapshots : List Snapshot
  todos : List StoredTodo
  nextSnapId : Int
  nextTodoId : Int
deriving DecidableEq, Repr

/-- A freshly created store (`open_db` on an empty directory): both tables
empty, rowids starting at 1. -/
def emptyDB : DB := ⟨[], [], 1, 1⟩

/-- The only database failure the claims inject: a row insert error. -/
inductive DbError where
  | insertFailed
deriving DecidableEq, Repr

instance : DecidableEq (Except DbError Int) := fun a b =>
  match a, b with
  | .ok x, .ok y => decidable_of_iff (x = y) (by simp)
  | .error x, .error y => decidable_of_iff (x = y) (by simp)
  | .ok _, .error _ => isFalse (by simp)
  | .error _, .ok _ => isFalse (by simp)

/-- The row built for one `FileTodo` by the insert loop of `save_snapshot`
(enrichment columns start out NULL). -/
def mkRow (sid tid : Int) (ft : FileTodo) : StoredTodo :=
  { id := tid
    snapshot_id := sid
    file_path := ft.file_path
    line_number := (ft.item.line_number : Int)
    keyword := ft.item.keyword
    author := ft.item.author
    issue_ref := ft.item.issue_ref
    description := ft.item.description
    git_author := none
    git_date := none }

/-- The rows produced by inserting `fts` in order from rowid `tid`. -/
def mkRows (sid : Int) : Int → List FileTodo → List StoredTodo
  | _, [] => []
  | tid, ft :: rest => mkRow sid tid ft :: mkRows sid (tid + 1) rest

/-- The per-row insert loop of `save_snapshot`, with an injected failure on
the row at index `failAt` (mirroring an arbitrary `rusqlite` insert error
surfaced by `stmt.execute(...)?`). -/
def insertLoop (sid : Int) : Int → List FileTodo → Option Nat →
    Except DbError (List StoredTodo)
  | _, [], _ => .ok []
  | _, _ :: _, some 0 => .error .insertFailed
  | tid, ft :: rest, some (n + 1) =>
    (insertLoop sid (tid + 1) rest (some n)).map (mkRow sid tid ft :: ·)
  | tid, ft :: rest, none =>
    (insertLoop sid (tid + 1) rest none).map (mkRow sid tid ft :: ·)

/-- `storage.rs` `save_snapshot`: BEGIN; insert the `Snapshot` row
(`todo_count` = length, `timestamp` = the current time, passed in here);
insert one row per marker; COMMIT on success, ROLLBACK (restoring the
pre-transaction state) on failure.  Returns the new state together with
the result. -/
def save_snapshot (db : DB) (ts : String) (todos : List FileTodo)
    (failAt : Option Nat) : DB × Except DbError Int :=
  match insertLoop db.nextSnapId db.nextTodoId todos failAt with
  | .ok rows =>
    ({ snapshots := db.snapshots ++ [⟨db.nextSnapId, ts, (todos.length : Int)⟩]
       todos := db.todos ++ rows
       nextSnapId := db.nextSnapId + 1
       nextTodoId := db.nextTodoId + (todos.length : Int) }, .ok db.nextSnapId)
  | .error e => (db, .error e)

/-- `storage.rs` `update_git_blame`: single-row update of the two
enrichment columns, keyed by rowid. -/
def update_git_blame (db : DB) (todo_id : Int) (git_author git_date : String) : DB :=
  { db with
    todos := db.todos.map (fun t =>
      if t.id == todo_id then
        { t with git_author := some git_author, git_date := some git_date }
      else t) }

/-- `ORDER BY id ASC` on snapshots. -/
def snapLe (a b : Snapshot) : Prop := a.id ≤ b.id

instance : DecidableRel snapLe := fun a b => by unfold snapLe; infer_instance

/-- `storage.rs` `get_snapshots`: all snapshots ordered by ascending id. -/
def get_snapshots (db : DB) : List Snapshot :=
  List.insertionSort snapLe db.snapshots

/-- `storage.rs` `get_latest_snapshot`: `ORDER BY id DESC LIMIT 1`, i.e.
the row with the greatest id (if any). -/
def get_latest_snapshot (db : DB) : Option Snapshot :=
  db.snapshots.foldl
    (fun best s =>
      match best with
      | none => some s
      | some b => if b.id < s.id then some s else some b)
    none

/-- `ORDER BY file_path, line_number` on todo rows. -/
def rowLe (a b : StoredTodo) : Prop :=
  a.file_path < b.file_path ∨ (a.file_path = b.file_path ∧ a.line_number ≤ b.line_number)

instance : DecidableRel rowLe := fun a b => by unfold rowLe; infer_instance

/-- `storage.rs` `get_todos_for_snapshot`: the rows of one snapshot,
ordered by file path then line number. -/
def get_todos_for_snapshot (db : DB) (snapshot_id : Int) : List StoredTodo :=
  List.insertionSort rowLe (db.todos.filter (fun t => t.snapshot_id == snapshot_id))

/-- `storage.rs` `get_latest_todo_count`. -/
def get_latest_todo_count (db : DB) : Option Int :=
  (get_latest_snapshot db).map (fun s => s.todo_count)

/-- The todo-count of the snapshot row with the given id (first such row). -/
def snapCount (db : DB) (snapshot_id : Int) : Option Int :=
  (db.snapshots.find? (fun s => s.id == snapshot_id)).map (fun s => s.todo_count)

/-! ## Mutating store operations (for invariant-preservation claims) -/

/-- The operations of the store that write state.  The read operations are
pure functions of the state and need no entry here. -/
inductive Op where
  | save (ts : String) (todos : List FileTodo) (failAt : Option Nat)
  | updateBlame (todo_id : Int) (git_author git_date : String)
deriving Repr

/-- Apply one store operation (discarding the returned value). -/
def applyOp (db : DB) : Op → DB
  | .save ts todos failAt => (save_snapshot db ts todos failAt).1
  | .updateBlame tid a d => update_git_blame db tid a d

/-- Apply a sequence of store operations. -/
def applyOps (db : DB) (ops : List Op) : DB := ops.foldl applyOp db

/-- Store well-formedness: every assigned id is below the corresponding
next-rowid counter (true of every state SQLite can reach). -/
def WF (db : DB) : Prop :=
  (∀ s ∈ db.snapshots, s.id < db.nextSnapId) ∧
  (∀ t ∈ db.todos, t.snapshot_id < db.nextSnapId) ∧
  (∀ t ∈ db.todos, t.id < db.nextTodoId)

instance : DecidablePred WF := fun db => by unfold WF; infer_instance

/-- The denormalisation invariant of the spec: every snapshot's
`todo_count` equals the number of stored rows referencing it. -/
def CountInv (db : DB) : Prop :=
  ∀ s ∈ db.snapshots, s.todo_count = ((get_todos_for_snapshot db s.id).length : Int)

instance : DecidablePred CountInv := fun db => by unfold CountInv; infer_instance

/-- Projection of a stored row to the six fields the round-trip claim
compares. -/
def projStored (t : StoredTodo) :
    String × Int × String × Option String × Option String × String :=
  (t.file_path, t.line_number, t.keyword, t.author, t.issue_ref, t.description)

/-- The same six fields of an in-memory `FileTodo`. -/
def projFile (ft : FileTodo) :
    String × Int × String × Option String × Option String × String :=
  (ft.file_path, (ft.item.line_number : Int), ft.item.keyword,
   ft.item.author, ft.item.issue_ref, ft.item.description)

/-! ## `git.rs` / `commands/list.rs`: batched blame enrichment

The external blame facility is the black box of spec section 6: an oracle
taking a file path and the requested line numbers and returning either a
per-line attribution lookup or a failure (`none`). -/

/-- `git.rs` `BlameInfo`. -/
structure BlameInfo where
  author : String
  date : String
deriving DecidableEq, Repr

/-- The external blame facility: one invocation blames one whole file. -/
def BlameOracle : Type := String → List Int → Option (Int → Option BlameInfo)

/-- The distinct file paths of the todo list, in first-appearance order
(the key set of the `HashMap` grouping in `list.rs`, rendered
deterministically). -/
def distinctPaths (todos : List StoredTodo) : List String :=
  todos.foldl
    (fun acc t => if acc.contains t.file_path then acc else acc ++ [t.file_path])
    []

/-- Enrichment of the in-memory rows for one file from one oracle answer:
rows of other files are untouched; rows whose line the oracle did not
report stay untouched. -/
def enrichTodosWith (f : String) (m : Int → Option BlameInfo)
    (todos : List StoredTodo) : List StoredTodo :=
  todos.map (fun t =>
    if t.file_path == f then
      match m t.line_number with
      | some info => { t with git_author := some info.author, git_date := some info.date }
      | none => t
    else t)

/-- The matching store writes (`update_git_blame` per resolved row). -/
def persistBlameWith (f : String) (m : Int → Option BlameInfo)
    (todos : List StoredTodo) (db : DB) : DB :=
  todos.foldl
    (fun d t =>
      if t.file_path == f then
        match m t.line_number with
        | some info => update_git_blame d t.id info.author info.date
        | none => d
      else d)
    db

/-- One iteration of the per-file loop in `list.rs`: one oracle call for
the whole file; on failure the file is skipped (`Err(_) => {}`). -/
def enrichStep (o : BlameOracle) (f : String) (db : DB) (todos : List StoredTodo) :
    DB × List StoredTodo :=
  match o f ((todos.filter (fun t => t.file_path == f)).map (fun t => t.line_number)) with
  | none => (db, todos)
  | some m => (persistBlameWith f m todos db, enrichTodosWith f m todos)

/-- The per-file loop, also logging one entry per oracle invocation. -/
def enrichFiles (o : BlameOracle) : List String → DB → List StoredTodo →
    DB × List StoredTodo × List String
  | [], db, todos => (db, todos, [])
  | f :: fs, db, todos =>
    let st := enrichStep o f db todos
    let r := enrichFiles o fs st.1 st.2
    (r.1, r.2.1, f :: r.2.2)

/-- The `--blame` enrichment pass of `list.rs`: group rows by file, blame
each distinct file once, merge the answers. -/
def enrich (o : BlameOracle) (db : DB) (todos : List StoredTodo) :
    DB × List StoredTodo × List String :=
  enrichFiles o (distinctPaths todos) db todos

/-! ## `commands/trend.rs`: trend rendering -/

/-- Signed percentage `((diff as f64) / (prev as f64) * 100.0).round()`,
computed exactly (round half away from zero); exact for the magnitudes any
claim mentions. -/
def pctOf (diff prev : Int) : Int :=
  let a := (100 * diff).natAbs
  let b := prev.natAbs
  let m : Int := ((2 * a + b) / (2 * b) : Nat)
  if decide (diff < 0) != decide (prev < 0) then -m else m

/-- String appended for a positive-or-zero number by `{:+}` formatting. -/
def signedStr (n : Int) : String :=
  if 0 ≤ n then "+" ++ toString n else toString n

/-- The `Change` column rendered by `trend.rs` for one snapshot, given the
previous count (color codes elided; both the first-snapshot marker and the
zero-to-zero marker are the same dimmed text). -/
def changeStr (prev : Option Int) (count : Int) : String :=
  match prev with
  | none => "  --"
  | some p =>
    if p = 0 then
      if count > 0 then "  ↑ +" ++ toString count else "  --"
    else
      let diff := count - p
      if diff > 0 then "  ↑ +" ++ toString diff ++ " (" ++ signedStr (pctOf diff p) ++ "%)"
      else if diff < 0 then "  ↓ " ++ toString diff ++ " (" ++ toString (pctOf diff p) ++ "%)"
      else "  = (0%)"

/-- The whole Change column for an ordered count sequence, mirroring the
`prev_count` loop of `trend.rs`. -/
def trendColumn : Option Int → List Int → List String
  | _, [] => []
  | prev, c :: rest => changeStr prev c :: trendColumn (some c) rest

/-- The trend view of an ordered snapshot history. -/
def trendStrings (counts : List Int) : List String :=
  trendColumn none counts

/-! ## `commands/check.rs` + `main.rs`: the CI gate -/

/-- Outcome of `check --max`: pass, threshold exceeded
(`process::exit(1)`), or the `NoSnapshots` error propagated to `main`. -/
inductive CheckOutcome where
  | pass
  | failExceeded
  | errNoSnapshots
deriving DecidableEq, Repr

/-- `check.rs` `run`: read the latest count; error if there is none; fail
iff `count as usize > max` (stored counts are nonnegative, so the cast is
`Int.toNat`). -/
def check_run (db : DB) (max : Nat) : CheckOutcome :=
  match get_latest_todo_count db with
  | none => .errNoSnapshots
  | some count => if count.toNat > max then .failExceeded else .pass

/-- The process exit status produced by `main.rs` for each outcome:
`Ok(())` exits 0, the exceeded branch calls `process::exit(1)`, and an
`Err` propagated out of `main` makes the Rust runtime exit with status 1
(`ExitCode::FAILURE`). -/
def checkExitCode : CheckOutcome → Nat
  | .pass => 0
  | .failExceeded => 1
  | .errNoSnapshots => 1

/-! ## Helper lemmas about the store -/

theorem insertLoop_error (sid : Int) :
    ∀ (fts : List FileTodo) (i : Nat) (tid : Int), i < fts.length →
      insertLoop sid tid fts (some i) = .error .insertFailed := by
  intro fts
  induction fts with
  | nil => intro i tid h; simp at h
  | cons ft rest ih =>
    intro i tid h
    cases i with
    | zero => rfl
    | succ n =>
      have hn : n < rest.length := by simp at h; omega
      simp [insertLoop, ih n (tid + 1) hn, Except.map]

theorem insertLoop_cases (sid : Int) :
    ∀ (fts : List FileTodo) (failAt : Option Nat) (tid : Int),
      insertLoop sid tid fts failAt = .error .insertFailed ∨
      insertLoop sid tid fts failAt = .ok (mkRows sid tid fts) := by
  intro fts
  induction fts with
  | nil => intro failAt tid; right; cases failAt <;> rfl
  | cons ft rest ih =>
    intro failAt tid
    match failAt with
    | none =>
      rcases ih none (tid + 1) with h | h <;>
        simp [insertLoop, h, mkRows, Except.map]
    | some 0 => left; rfl
    | some (n + 1) =>
      rcases ih (some n) (tid + 1) with h | h <;>
        simp [insertLoop, h, mkRows, Except.map]

/-- The committed state written by a successful `save_snapshot`. -/
def commitDB (db : DB) (ts : String) (todos : List FileTodo) : DB :=
  { snapshots := db.snapshots ++ [⟨db.nextSnapId, ts, (todos.length : Int)⟩]
    todos := db.todos ++ mkRows db.nextSnapId db.nextTodoId todos
    nextSnapId := db.nextSnapId + 1
    nextTodoId := db.nextTodoId + (todos.length : Int) }

theorem save_snapshot_ok {db : DB} {ts : String} {todos : List FileTodo}
    {failAt : Option Nat} {db₁ : DB} {sid : Int}
    (h : save_snapshot db ts todos failAt = (db₁, .ok sid)) :
    sid = db.nextSnapId ∧ db₁ = commitDB db ts todos := by
  unfold save_snapshot at h
  rcases insertLoop_cases db.nextSnapId todos failAt db.nextTodoId with he | hok
  · rw [he] at h; simp at h
  · rw [hok] at h
    have h1 := congrArg Prod.fst h
    have h2 := congrArg Prod.snd h
    simp at h1 h2
    exact ⟨h2.symm, by rw [← h1]; rfl⟩

theorem mkRows_snapshot_id (sid : Int) :
    ∀ (fts : List FileTodo) (tid : Int) (t : StoredTodo),
      t ∈ mkRows sid tid fts → t.snapshot_id = sid := by
  intro fts
  induction fts with
  | nil => intro tid t ht; simp [mkRows] at ht
  | cons ft rest ih =>
    intro tid t ht
    simp only [mkRows, List.mem_cons] at ht
    rcases ht with rfl | ht
    · rfl
    · exact ih (tid + 1) t ht

theorem mkRows_length (sid : Int) :
    ∀ (fts : List FileTodo) (tid : Int), (mkRows sid tid fts).length = fts.length := by
  intro fts
  induction fts with
  | nil => intro tid; rfl
  | cons ft rest ih => intro tid; simp [mkRows, ih]

theorem mkRows_id_lt (sid : Int) :
    ∀ (fts : List FileTodo) (tid : Int) (t : StoredTodo),
      t ∈ mkRows sid tid fts → t.id < tid + (fts.length : Int) := by
  intro fts
  induction fts with
  | nil => intro tid t ht; simp [mkRows] at ht
  | cons ft rest ih =>
    intro tid t ht
    simp only [mkRows, List.mem_cons] at ht
    rcases ht with rfl | ht
    · simp only [mkRow, List.length_cons]
      push_cast
      omega
    · have := ih (tid + 1) t ht
      simp only [List.length_cons]
      push_cast at this ⊢
      omega

theorem mkRows_proj (sid : Int) :
    ∀ (fts : List FileTodo) (tid : Int),
      (mkRows sid tid fts).map projStored = fts.map projFile := by
  intro fts
  induction fts with
  | nil => intro tid; rfl
  | cons ft rest ih => intro tid; simp [mkRows, ih]; rfl

theorem filter_mkRows_self (sid : Int) (fts : List FileTodo) (tid : Int) :
    (mkRows sid tid fts).filter (fun t => t.snapshot_id == sid) = mkRows sid tid fts :=
  List.filter_eq_self.mpr (fun t ht => by
    rw [mkRows_snapshot_id sid fts tid t ht]; simp)

theorem filter_mkRows_ne (sid sid' : Int) (h : sid' ≠ sid)
    (fts : List FileTodo) (tid : Int) :
    (mkRows sid tid fts).filter (fun t => t.snapshot_id == sid') = [] :=
  List.filter_eq_nil_iff.mpr (fun t ht => by
    rw [mkRows_snapshot_id sid fts tid t ht]
    simp
    exact fun e => h e.symm)

theorem length_get_todos (db : DB) (sid : Int) :
    (get_todos_for_snapshot db sid).length =
      (db.todos.filter (fun t => t.snapshot_id == sid)).length :=
  (List.perm_insertionSort rowLe _).length_eq

theorem filter_map_comm {α : Type} (f : α → α) (p : α → Bool)
    (hf : ∀ x, p (f x) = p x) :
    ∀ l : List α, (l.map f).filter p = (l.filter p).map f := by
  intro l
  induction l with
  | nil => rfl
  | cons a l ih =>
    show (f a :: l.map f).filter p = ((a :: l).filter p).map f
    rw [List.filter_cons, List.filter_cons, hf a]
    cases hp : p a <;> simp [ih]

theorem WF_commit (db : DB) (ts : String) (fts : List FileTodo) (hwf : WF db) :
    WF (commitDB db ts fts) := by
  obtain ⟨h1, h2, h3⟩ := hwf
  refine ⟨?_, ?_, ?_⟩
  · intro s hs
    simp only [commitDB, List.mem_append, List.mem_singleton] at hs ⊢
    rcases hs with hs | rfl
    · have := h1 s hs; omega
    · exact lt_add_one db.nextSnapId
  · intro t ht
    simp only [commitDB, List.mem_append] at ht ⊢
    rcases ht with ht | ht
    · have := h2 t ht; omega
    · rw [mkRows_snapshot_id db.nextSnapId fts db.nextTodoId t ht]; omega
  · intro t ht
    simp only [commitDB, List.mem_append] at ht ⊢
    rcases ht with ht | ht
    · have := h3 t ht; omega
    · exact mkRows_id_lt db.nextSnapId fts db.nextTodoId t ht

theorem CountInv_commit (db : DB) (ts : String) (fts : List FileTodo)
    (hwf : WF db) (hinv : CountInv db) : CountInv (commitDB db ts fts) := by
  obtain ⟨h1, h2, _⟩ := hwf
  intro s hs
  rw [length_get_todos]
  simp only [commitDB, List.mem_append, List.mem_singleton] at hs ⊢
  rw [List.filter_append]
  rcases hs with hs | rfl
  · rw [filter_mkRows_ne db.nextSnapId s.id (by have := h1 s hs; omega) fts db.nextTodoId]
    rw [List.append_nil]
    have := hinv s hs
    rw [length_get_todos] at this
    exact this
  · rw [filter_mkRows_self]
    rw [List.filter_eq_nil_iff.mpr (fun t ht => by
      have := h2 t ht
      simp
      omega)]
    rw [List.nil_append, mkRows_length]

theorem update_preserves_WF (db : DB) (tid : Int) (a d : String) (hwf : WF db) :
    WF (update_git_blame db tid a d) := by
  obtain ⟨h1, h2, h3⟩ := hwf
  refine ⟨h1, ?_, ?_⟩
  · intro t ht
    simp only [update_git_blame, List.mem_map] at ht
    obtain ⟨u, hu, rfl⟩ := ht
    have := h2 u hu
    split <;> simpa
  · intro t ht
    simp only [update_git_blame, List.mem_map] at ht
    obtain ⟨u, hu, rfl⟩ := ht
    have := h3 u hu
    split <;> simpa

theorem update_preserves_CountInv (db : DB) (tid : Int) (a d : String)
    (hinv : CountInv db) : CountInv (update_git_blame db tid a d) := by
  intro s hs
  have hs' : s ∈ db.snapshots := hs
  rw [length_get_todos]
  simp only [update_git_blame]
  rw [filter_map_comm _ _ (fun t => by split <;> rfl), List.length_map]
  have := hinv s hs'
  rw [length_get_todos] at this
  exact this

theorem applyOp_preserves (db : DB) (op : Op) (h : WF db ∧ CountInv db) :
    WF (applyOp db op) ∧ CountInv (applyOp db op) := by
  obtain ⟨hwf, hinv⟩ := h
  cases op with
  | save ts fts failAt =>
    show WF (save_snapshot db ts fts failAt).1 ∧ CountInv (save_snapshot db ts fts failAt).1
    unfold save_snapshot
    rcases insertLoop_cases db.nextSnapId fts failAt db.nextTodoId with he | hok
    · rw [he]; exact ⟨hwf, hinv⟩
    · rw [hok]
      exact ⟨WF_commit db ts fts hwf, CountInv_commit db ts fts hwf hinv⟩
  | updateBlame tid a d =>
    exact ⟨update_preserves_WF db tid a d hwf,
           update_preserves_CountInv db tid a d hinv⟩

theorem applyOps_preserves (ops : List Op) :
    ∀ db : DB, WF db ∧ CountInv db →
      WF (applyOps db ops) ∧ CountInv (applyOps db ops) := by
  induction ops with
  | nil => intro db h; exact h
  | cons op rest ih =>
    intro db h
    exact ih (applyOp db op) (applyOp_preserves db op h)

theorem applyOp_snapshots_mono (db : DB) (op : Op) (s : Snapshot)
    (h : s ∈ db.snapshots) : s ∈ (applyOp db op).snapshots := by
  cases op with
  | save ts fts failAt =>
    show s ∈ (save_snapshot db ts fts failAt).1.snapshots
    unfold save_snapshot
    rcases insertLoop_cases db.nextSnapId fts failAt db.nextTodoId with he | hok
    · rw [he]; exact h
    · rw [hok]; exact List.mem_append_left _ h
  | updateBlame tid a d => exact h

theorem applyOps_snapshots_mono (ops : List Op) :
    ∀ (db : DB) (s : Snapshot), s ∈ db.snapshots → s ∈ (applyOps db ops).snapshots := by
  induction ops with
  | nil => intro db s h; exact h
  | cons op rest ih =>
    intro db s h
    exact ih (applyOp db op) s (applyOp_snapshots_mono db op s h)

/-! ## Claim theorems: the snapshot store -/

/-- A sample marker used by the concrete witnesses. -/
def ft0 : FileTodo := ⟨"a.rs", ⟨1, "TODO", none, none, "x"⟩⟩

/-- A second sample marker in a different file. -/
def ft1 : FileTodo := ⟨"b.rs", ⟨2, "FIXME", none, some "#7", "y"⟩⟩

/-- C1: if the insert of any `StoredTodo` row fails, the whole snapshot is
rolled back: the state is exactly the pre-call state, `save_snapshot`
returns the error, and every subsequent read (`get_snapshots`,
`get_latest_snapshot`, `get_todos_for_snapshot`) sees no trace of the
attempted snapshot. -/
theorem save_snapshot_rolls_back_on_row_failure (db : DB) (ts : String)
    (todos : List FileTodo) (i : Nat) (sid : Int) (h : i < todos.length) :
    (save_snapshot db ts todos (some i)).1 = db ∧
    (save_snapshot db ts todos (some i)).2 = .error .insertFailed ∧
    get_snapshots (save_snapshot db ts todos (some i)).1 = get_snapshots db ∧
    get_latest_snapshot (save_snapshot db ts todos (some i)).1 = get_latest_snapshot db ∧
    get_todos_for_snapshot (save_snapshot db ts todos (some i)).1 sid =
      get_todos_for_snapshot db sid := by
  have hl := insertLoop_error db.nextSnapId todos i db.nextTodoId h
  unfold save_snapshot
  rw [hl]
  exact ⟨rfl, rfl, rfl, rfl, rfl⟩

/-- Witness for C1 at a concrete store, marker list and failing row. -/
theorem save_snapshot_rolls_back_on_row_failure_witness :
    (save_snapshot emptyDB "t0" [ft0, ft1] (some 1)).1 = emptyDB ∧
    (save_snapshot emptyDB "t0" [ft0, ft1] (some 1)).2 = .error .insertFailed := by
  have h := save_snapshot_rolls_back_on_row_failure emptyDB "t0" [ft0, ft1] 1 1 (by decide)
  exact ⟨h.1, h.2.1⟩

/-- C2: after a successful `save_snapshot` returning `sid`, the stored
snapshot row with id `sid` has `todo_count` equal to the number of rows
`get_todos_for_snapshot` returns for `sid`, and this stays true after any
sequence of further store operations (saves and `update_git_blame`). -/
theorem todo_count_matches_rows_after_ops (db : DB) (ts : String)
    (todos : List FileTodo) (ops : List Op) (db₁ : DB) (sid : Int)
    (hwf : WF db) (hinv : CountInv db)
    (hsave : save_snapshot db ts todos none = (db₁, .ok sid)) :
    snapCount (applyOps db₁ ops) sid =
      some ((get_todos_for_snapshot (applyOps db₁ ops) sid).length : Int) := by
  obtain ⟨hsid, hdb⟩ := save_snapshot_ok hsave
  subst hdb
  subst hsid
  have hpres := applyOps_preserves ops (commitDB db ts todos)
    ⟨WF_commit db ts todos hwf, CountInv_commit db ts todos hwf hinv⟩
  have hmem : (⟨db.nextSnapId, ts, (todos.length : Int)⟩ : Snapshot) ∈
      (applyOps (commitDB db ts todos) ops).snapshots :=
    applyOps_snapshots_mono ops (commitDB db ts todos) _ (by simp [commitDB])
  have hsomef : (((applyOps (commitDB db ts todos) ops).snapshots.find?
      (fun s => s.id == db.nextSnapId))).isSome :=
    List.find?_isSome.mpr ⟨_, hmem, by simp⟩
  obtain ⟨s, hfind⟩ := Option.isSome_iff_exists.mp hsomef
  have hid : s.id = db.nextSnapId := by simpa using List.find?_some hfind
  have hmem2 := List.mem_of_find?_eq_some hfind
  have hci := hpres.2 s hmem2
  unfold snapCount
  rw [hfind]
  show some s.todo_count = _
  rw [hci, hid]

/-- Concrete store reached by a save of two markers followed by an
enrichment update and a second save (used by the C2 witness). -/
def dbC2 : DB :=
  applyOps (save_snapshot emptyDB "t0" [ft0, ft1] none).1
    [Op.updateBlame 1 "alice" "2024-01-02", Op.save "t1" [ft0] none]

/-- Witness for C2 at a concrete store and operation sequence. -/
theorem todo_count_matches_rows_after_ops_witness :
    snapCount dbC2 1 = some ((get_todos_for_snapshot dbC2 1).length : Int) :=
  todo_count_matches_rows_after_ops emptyDB "t0" [ft0, ft1]
    [Op.updateBlame 1 "alice" "2024-01-02", Op.save "t1" [ft0] none]
    (save_snapshot emptyDB "t0" [ft0, ft1] none).1 1
    (by decide) (by decide) rfl

/-- C3: a marker list persisted by a successful `save_snapshot` and re-read
through `get_todos_for_snapshot` with the returned id reproduces, as a
multiset, exactly the original items with the same file path, line number,
keyword, author, issue reference and description. -/
theorem save_then_read_roundtrip (db : DB) (ts : String) (todos : List FileTodo)
    (failAt : Option Nat) (db₁ : DB) (sid : Int) (hwf : WF db)
    (hsave : save_snapshot db ts todos failAt = (db₁, .ok sid)) :
    ((get_todos_for_snapshot db₁ sid).map projStored).Perm (todos.map projFile) := by
  obtain ⟨hsid, hdb⟩ := save_snapshot_ok hsave
  subst hdb
  subst hsid
  unfold get_todos_for_snapshot
  have hfil : ((commitDB db ts todos).todos.filter
      (fun t => t.snapshot_id == db.nextSnapId)) =
      mkRows db.nextSnapId db.nextTodoId todos := by
    show ((db.todos ++ mkRows db.nextSnapId db.nextTodoId todos).filter _) = _
    rw [List.filter_append, filter_mkRows_self,
      List.filter_eq_nil_iff.mpr (fun t ht => by
        have := hwf.2.1 t ht
        simp
        omega),
      List.nil_append]
  rw [hfil]
  have h1 : ((List.insertionSort rowLe
        (mkRows db.nextSnapId db.nextTodoId todos)).map projStored).Perm
      ((mkRows db.nextSnapId db.nextTodoId todos).map projStored) :=
    (List.perm_insertionSort rowLe _).map projStored
  rw [mkRows_proj] at h1
  exact h1

/-- Concrete store reached by one successful save (used by the C3 witness). -/
def dbC3 : DB := (save_snapshot emptyDB "t0" [ft0, ft1] none).1

/-- Witness for C3 at a concrete store and marker list. -/
theorem save_then_read_roundtrip_witness :
    ((get_todos_for_snapshot dbC3 1).map projStored).Perm
      ([ft0, ft1].map projFile) :=
  save_then_read_roundtrip emptyDB "t0" [ft0, ft1] none dbC3 1 (by decide) rfl

/-! ## Helper lemmas about the parser -/

/-- Upper-case ASCII letter test (the keyword patterns consist of these). -/
def isUpperAlpha (c : Char) : Bool := decide (65 ≤ c.toNat ∧ c.toNat ≤ 90)

theorem isWordChar_of_upcase (c k : Char) (hu : upcaseChar c = k)
    (hk : isUpperAlpha k = true) : isWordChar c = true := by
  rw [isUpperAlpha, decide_eq_true_iff] at hk
  unfold upcaseChar at hu
  by_cases hc : 97 ≤ c.toNat ∧ c.toNat ≤ 122
  · unfold isWordChar
    simp only [Bool.or_eq_true, decide_eq_true_iff]
    omega
  · rw [if_neg hc] at hu
    subst hu
    unfold isWordChar
    simp only [Bool.or_eq_true, decide_eq_true_iff]
    omega

theorem matchKwAt_head {s : List Char} {p : Nat} {k : Char} {ks : List Char}
    (h : matchKwAt s p (k :: ks) = true) :
    ∃ c, s[p]? = some c ∧ upcaseChar c = k ∧ matchKwAt s (p + 1) ks = true := by
  cases hc : s[p]? with
  | none => simp only [matchKwAt, hc] at h; exact Bool.noConfusion h
  | some c =>
    simp only [matchKwAt, hc, Bool.and_eq_true, beq_iff_eq] at h
    exact ⟨c, rfl, h.1, h.2⟩

theorem matchKwAt_wordAt {s : List Char} (kw : List Char)
    (hkwU : ∀ k ∈ kw, isUpperAlpha k = true) :
    ∀ (p i : Nat), matchKwAt s p kw = true → i < kw.length →
      isWordAt s (p + i) = true := by
  induction kw with
  | nil => intro p i _ hi; simp at hi
  | cons k ks ih =>
    intro p i h hi
    obtain ⟨c, hc, hup, hrest⟩ := matchKwAt_head h
    cases i with
    | zero =>
      unfold isWordAt
      rw [Nat.add_zero, hc]
      exact isWordChar_of_upcase c k hup (hkwU k (List.mem_cons_self k ks))
    | succ j =>
      have hj : j < ks.length := by simp at hi; omega
      have := ih (fun x hx => hkwU x (List.mem_cons_of_mem k hx)) (p + 1) j hrest hj
      rw [show p + (j + 1) = (p + 1) + j from by omega]
      exact this

theorem matchKwAt_lt_length {s : List Char} {p : Nat} {k : Char} {ks : List Char}
    (h : matchKwAt s p (k :: ks) = true) : p < s.length := by
  obtain ⟨c, hc, -, -⟩ := matchKwAt_head h
  exact (List.getElem?_eq_some.mp hc).1

theorem tryKw_none_of_flanked (s : List Char) (p : Nat) (kw : List Char)
    (hb : wordBoundary s p = true)
    (hkwU : ∀ k ∈ kw, isUpperAlpha k = true) (hne : kw ≠ [])
    (hH : matchKwAt s p kw = true →
      (p ≠ 0 ∧ isWordAt s (p - 1) = true) ∨ isWordAt s (p + kw.length) = true) :
    tryKw s p kw = none := by
  cases hm : matchKwAt s p kw with
  | false => simp [tryKw, hm]
  | true =>
    have hlen : 0 < kw.length := List.length_pos.mpr hne
    rcases hH hm with ⟨hp0, hwl⟩ | hwr
    · exfalso
      have hw0 : isWordAt s p = true := by
        have := matchKwAt_wordAt kw hkwU p 0 hm hlen
        simpa using this
      unfold wordBoundary at hb
      rw [if_neg hp0, hwl, hw0] at hb
      simp at hb
    · have hwl2 : isWordAt s (p + kw.length - 1) = true := by
        have := matchKwAt_wordAt kw hkwU p (kw.length - 1) hm (by omega)
        rw [show p + (kw.length - 1) = p + kw.length - 1 from by omega] at this
        exact this
      have hbnd : wordBoundary s (p + kw.length) = false := by
        unfold wordBoundary
        rw [if_neg (by omega : ¬ p + kw.length = 0), hwl2, hwr]
        rfl
      simp [tryKw, hm, hbnd]

theorem findFrom_none {s : List Char} (hall : ∀ p, matchAt s p = none) :
    ∀ (fuel p : Nat), findFrom s p fuel = none := by
  intro fuel
  induction fuel with
  | zero => intro p; rfl
  | succ m ih => intro p; simp [findFrom, hall p, ih (p + 1)]

/-! ## Claim theorems: the line parser -/

/-- C4: on a line in which every (case-insensitive) keyword occurrence is
flanked by a word character on at least one side — i.e. the keyword occurs
only embedded in a longer identifier — `parse_line` returns nothing, for
every line number. -/
theorem parse_line_rejects_embedded_keywords (line : String) (n : Nat)
    (H : ∀ p, p < line.data.length → ∀ kw, kw ∈ keywordList →
      matchKwAt line.data p kw = true →
      ((p ≠ 0 ∧ isWordAt line.data (p - 1) = true) ∨
        isWordAt line.data (p + kw.length) = true)) :
    parse_line line n = none := by
  have hcap : todoCaptures line = none := by
    unfold todoCaptures
    apply findFrom_none
    intro p
    unfold matchAt
    cases hb : wordBoundary line.data p with
    | false => simp [hb]
    | true =>
      simp only [hb, if_pos]
      have h1 : tryKw line.data p ['T', 'O', 'D', 'O'] = none := by
        apply tryKw_none_of_flanked _ _ _ hb (by decide) (by decide)
        intro hm
        exact H p (matchKwAt_lt_length hm) _ (by decide) hm
      have h2 : tryKw line.data p ['F', 'I', 'X', 'M', 'E'] = none := by
        apply tryKw_none_of_flanked _ _ _ hb (by decide) (by decide)
        intro hm
        exact H p (matchKwAt_lt_length hm) _ (by decide) hm
      have h3 : tryKw line.data p ['H', 'A', 'C', 'K'] = none := by
        apply tryKw_none_of_flanked _ _ _ hb (by decide) (by decide)
        intro hm
        exact H p (matchKwAt_lt_length hm) _ (by decide) hm
      have h4 : tryKw line.data p ['X', 'X', 'X'] = none := by
        apply tryKw_none_of_flanked _ _ _ hb (by decide) (by decide)
        intro hm
        exact H p (matchKwAt_lt_length hm) _ (by decide) hm
      simp [tryKws, keywordList, h1, h2, h3, h4]
  simp [parse_line, hcap]

/-- Witness for C4 on a concrete line whose only keyword occurrence sits
inside the identifier `TodoItem`. -/
theorem parse_line_rejects_embedded_keywords_witness :
    parse_line "// TodoItem is not a marker" 7 = none :=
  parse_line_rejects_embedded_keywords _ 7 (by decide)

/-- C5 counterexample: `// TODO(): fix it` parses to an item whose author
is absent (`none`), not an empty string. -/
theorem empty_parenthetical_author_cex :
    (parse_line "// TODO(): fix it" 1).map TodoItem.author = some none ∧
    (parse_line "// TODO(): fix it" 1).map TodoItem.author ≠ some (some "") := by
  decide

/-- C5 amended: an empty parenthetical is not captured as an author group
at all (`[^)]+` needs at least one character): the item's author field is
absent and the parenthesis text stays at the head of the description. -/
theorem empty_parenthetical_author_amended :
    parse_line "// TODO(): fix it" 1 =
      some ⟨1, "TODO", none, none, "(): fix it"⟩ := by decide

/-- C6 counterexample: the line `// TODO:` does yield an item — the regex
backtracks over the optional colon and the colon itself becomes the
(one-character) description. -/
theorem colon_after_keyword_cex :
    parse_line "// TODO:" 1 = some ⟨1, "TODO", none, none, ":"⟩ := by decide

/-- C6 amended: `parse_line` returns nothing only when zero characters
follow the keyword itself; if the optional colon is present with nothing
after it, the colon is consumed as the description, and trailing
whitespace yields an item with an empty trimmed description. -/
theorem bare_keyword_amended (n : Nat) :
    parse_line "// TODO" n = none ∧
    parse_line "// TODO:" n = some ⟨n, "TODO", none, none, ":"⟩ ∧
    parse_line "// TODO:     " n = some ⟨n, "TODO", none, none, ""⟩ :=
  ⟨rfl, rfl, rfl⟩

/-- Witness for the amended C6 at a concrete line number. -/
theorem bare_keyword_amended_witness :
    parse_line "// TODO" 1 = none ∧
    parse_line "// TODO:" 1 = some ⟨1, "TODO", none, none, ":"⟩ :=
  ⟨(bare_keyword_amended 1).1, (bare_keyword_amended 1).2.1⟩

/-- C10: the comment-marker precondition is a substring-anywhere test, not
a comment-prefix test: a plain code line with no comment syntax before the
keyword still parses because the `#` of its issue reference satisfies the
marker test; without the `#` the same line is rejected. -/
theorem marker_substring_anywhere :
    parse_line "let s = TODO: fix #42" 1 =
      some ⟨1, "TODO", none, some "#42", "fix #42"⟩ ∧
    parse_line "let s = TODO: fix 42" 1 = none ∧
    line_has_comment_marker "let s = TODO: fix #42" = true := by decide

/-! ## Helper lemmas about blame enrichment -/

theorem enrichFiles_log (o : BlameOracle) :
    ∀ (fs : List String) (db : DB) (todos : List StoredTodo),
      (enrichFiles o fs db todos).2.2 = fs := by
  intro fs
  induction fs with
  | nil => intro db todos; rfl
  | cons f fs ih =>
    intro db todos
    simp only [enrichFiles]
    rw [ih]

/-- One step of the grouping fold of `distinctPaths`. -/
def dpStep (acc : List String) (t : StoredTodo) : List String :=
  if acc.contains t.file_path then acc else acc ++ [t.file_path]

theorem distinctPaths_eq_foldl (todos : List StoredTodo) :
    distinctPaths todos = todos.foldl dpStep [] := rfl

theorem foldl_dpStep_mem :
    ∀ (todos : List StoredTodo) (acc : List String) (x : String),
      (x ∈ todos.foldl dpStep acc ↔
        x ∈ acc ∨ x ∈ todos.map (fun t => t.file_path)) := by
  intro todos
  induction todos with
  | nil => intro acc x; simp
  | cons t ts ih =>
    intro acc x
    show x ∈ ts.foldl dpStep (dpStep acc t) ↔ _
    rw [ih]
    unfold dpStep
    by_cases hct : acc.contains t.file_path
    · rw [if_pos hct]
      have hmem : t.file_path ∈ acc := by simpa using hct
      simp only [List.map_cons, List.mem_cons]
      constructor
      · rintro (hx | hx)
        · exact Or.inl hx
        · exact Or.inr (Or.inr hx)
      · rintro (hx | hx | hx)
        · exact Or.inl hx
        · exact Or.inl (hx ▸ hmem)
        · exact Or.inr hx
    · rw [if_neg hct]
      simp only [List.mem_append, List.mem_cons, List.not_mem_nil, or_false,
        List.map_cons]
      tauto

theorem distinctPaths_mem (todos : List StoredTodo) (x : String) :
    x ∈ distinctPaths todos ↔ x ∈ todos.map (fun t => t.file_path) := by
  rw [distinctPaths_eq_foldl, foldl_dpStep_mem todos [] x]
  simp

theorem foldl_dpStep_nodup :
    ∀ (todos : List StoredTodo) (acc : List String), acc.Nodup →
      (todos.foldl dpStep acc).Nodup := by
  intro todos
  induction todos with
  | nil => intro acc h; exact h
  | cons t ts ih =>
    intro acc h
    show (ts.foldl dpStep (dpStep acc t)).Nodup
    apply ih
    unfold dpStep
    by_cases hct : acc.contains t.file_path
    · rw [if_pos hct]; exact h
    · rw [if_neg hct]
      have : t.file_path ∉ acc := by simpa using hct
      simp [List.nodup_append, h, this]

theorem distinctPaths_nodup (todos : List StoredTodo) :
    (distinctPaths todos).Nodup :=
  foldl_dpStep_nodup todos [] (by simp)

/-- The per-row update applied by one oracle answer for file `g`. -/
def blameUpd (g : String) (m : Int → Option BlameInfo) (t : StoredTodo) : StoredTodo :=
  if t.file_path == g then
    match m t.line_number with
    | some info => { t with git_author := some info.author, git_date := some info.date }
    | none => t
  else t

theorem enrichTodosWith_eq_map (g : String) (m : Int → Option BlameInfo)
    (todos : List StoredTodo) :
    enrichTodosWith g m todos = todos.map (blameUpd g m) := rfl

theorem blameUpd_file_path (g : String) (m : Int → Option BlameInfo)
    (t : StoredTodo) : (blameUpd g m t).file_path = t.file_path := by
  unfold blameUpd
  by_cases hc : (t.file_path == g) = true
  · rw [if_pos hc]; cases m t.line_number <;> rfl
  · rw [if_neg hc]

theorem filter_enrichTodos_comm (f g : String) (m : Int → Option BlameInfo)
    (todos : List StoredTodo) :
    (enrichTodosWith g m todos).filter (fun t => t.file_path == f) =
      (todos.filter (fun t => t.file_path == f)).map (blameUpd g m) := by
  rw [enrichTodosWith_eq_map]
  exact filter_map_comm _ _ (fun t => by rw [blameUpd_file_path]) todos

theorem filter_enrichTodos_ne (f g : String) (hne : g ≠ f)
    (m : Int → Option BlameInfo) (todos : List StoredTodo) :
    (enrichTodosWith g m todos).filter (fun t => t.file_path == f) =
      todos.filter (fun t => t.file_path == f) := by
  rw [filter_enrichTodos_comm]
  have hid : ∀ t ∈ todos.filter (fun t => t.file_path == f), blameUpd g m t = id t := by
    intro t ht
    have hf : t.file_path = f := by simpa using (List.mem_filter.mp ht).2
    unfold blameUpd
    rw [if_neg (by simp [hf]; exact fun e => hne e.symm)]
    rfl
  rw [List.map_congr_left hid, List.map_id]

theorem enrichFiles_indep (o o' : BlameOracle) (f : String) (h : o f = o' f) :
    ∀ (fs : List String) (db₁ db₂ : DB) (todos₁ todos₂ : List StoredTodo),
      todos₁.filter (fun t => t.file_path == f) =
        todos₂.filter (fun t => t.file_path == f) →
      ((enrichFiles o fs db₁ todos₁).2.1.filter (fun t => t.file_path == f)) =
        ((enrichFiles o' fs db₂ todos₂).2.1.filter (fun t => t.file_path == f)) := by
  intro fs
  induction fs with
  | nil => intro db₁ db₂ t₁ t₂ hagree; exact hagree
  | cons g fs ih =>
    intro db₁ db₂ t₁ t₂ hagree
    simp only [enrichFiles]
    apply ih
    by_cases hg : g = f
    · subst hg
      show (enrichStep o g db₁ t₁).2.filter (fun t => t.file_path == g) =
        (enrichStep o' g db₂ t₂).2.filter (fun t => t.file_path == g)
      unfold enrichStep
      rw [hagree, h]
      cases ho : o' g ((t₂.filter (fun t => t.file_path == g)).map
          (fun t => t.line_number)) with
      | none => exact hagree
      | some m =>
        show (enrichTodosWith g m t₁).filter (fun t => t.file_path == g) =
          (enrichTodosWith g m t₂).filter (fun t => t.file_path == g)
        rw [filter_enrichTodos_comm, filter_enrichTodos_comm, hagree]
    · have l1 : (enrichStep o g db₁ t₁).2.filter (fun t => t.file_path == f) =
          t₁.filter (fun t => t.file_path == f) := by
        unfold enrichStep
        cases o g ((t₁.filter (fun t => t.file_path == g)).map
            (fun t => t.line_number)) with
        | none => rfl
        | some m => exact filter_enrichTodos_ne f g hg m t₁
      have l2 : (enrichStep o' g db₂ t₂).2.filter (fun t => t.file_path == f) =
          t₂.filter (fun t => t.file_path == f) := by
        unfold enrichStep
        cases o' g ((t₂.filter (fun t => t.file_path == g)).map
            (fun t => t.line_number)) with
        | none => rfl
        | some m => exact filter_enrichTodos_ne f g hg m t₂
      rw [l1, l2, hagree]

/-! ## Claim theorems: blame enrichment -/

/-- C7: one enrichment pass issues exactly one blame invocation per
distinct file of the marker set (the call log equals the duplicate-free
list of distinct paths, whatever the oracle answers — so a failure for one
file never suppresses the calls for the others), and the enrichment of the
rows of a file depends only on the oracle's answer for that file. -/
theorem enrichment_batched_per_file (o o' : BlameOracle) (db db' : DB)
    (todos : List StoredTodo) (f : String) (h : o f = o' f) :
    (enrich o db todos).2.2 = distinctPaths todos ∧
    (enrich o' db' todos).2.2 = distinctPaths todos ∧
    (distinctPaths todos).Nodup ∧
    (∀ g, g ∈ distinctPaths todos ↔ g ∈ todos.map (fun t => t.file_path)) ∧
    ((enrich o db todos).2.1.filter (fun t => t.file_path == f)) =
      ((enrich o' db' todos).2.1.filter (fun t => t.file_path == f)) :=
  ⟨enrichFiles_log o (distinctPaths todos) db todos,
   enrichFiles_log o' (distinctPaths todos) db' todos,
   distinctPaths_nodup todos,
   fun g => distinctPaths_mem todos g,
   enrichFiles_indep o o' f h (distinctPaths todos) db db' todos todos rfl⟩

/-- Three stored rows across two files, used by the C7 witness. -/
def todosW : List StoredTodo :=
  [⟨1, 1, "a.rs", 1, "TODO", none, none, "x", none, none⟩,
   ⟨2, 1, "b.rs", 2, "FIXME", none, none, "y", none, none⟩,
   ⟨3, 1, "a.rs", 5, "HACK", none, none, "z", none, none⟩]

/-- An oracle that fails on every file. -/
def oracleFail : BlameOracle := fun _ _ => none

/-- An oracle that fails on `a.rs` but answers for `b.rs`. -/
def oracleB : BlameOracle := fun p _ =>
  if p == "b.rs" then some (fun _ => some ⟨"bob", "2020-05-17"⟩) else none

/-- Witness for C7: two oracles agreeing on `a.rs` (one failing everywhere,
one failing only on `a.rs`), three markers across two files. -/
theorem enrichment_batched_per_file_witness :
    (enrich oracleFail emptyDB todosW).2.2 = distinctPaths todosW ∧
    distinctPaths todosW = ["a.rs", "b.rs"] ∧
    ((enrich oracleFail emptyDB todosW).2.1.filter (fun t => t.file_path == "a.rs")) =
      ((enrich oracleB emptyDB todosW).2.1.filter (fun t => t.file_path == "a.rs")) := by
  have h := enrichment_batched_per_file oracleFail oracleB emptyDB emptyDB todosW
    "a.rs" (by funext l; rfl)
  exact ⟨h.1, by decide, h.2.2.2.2⟩

/-! ## Claim theorems: trend rendering -/

/-- C8 counterexample: with counts `[0, 0]` the second snapshot has a zero
difference, yet its rendered change state is the same `--` marker as the
first snapshot's no-history state — not a distinct "no change" state. -/
theorem trend_zero_to_zero_cex :
    trendStrings [0, 0] = ["  --", "  --"] ∧
    changeStr (some 0) 0 = changeStr none 0 := by decide

/-- C8 amended: the claimed rendering holds except when the previous count
is zero: a zero difference yields the explicit `= (0%)` state (distinct
from the `--` no-history marker) only for a nonzero previous count, while
a zero-to-zero step renders the same `--` as no-history; the zero-to-
nonzero step shows an increase without a percentage, and the claimed
example column is rendered verbatim. -/
theorem trend_rendering_amended (prev count : Int) (hp : prev ≠ 0)
    (he : count = prev) :
    changeStr (some prev) count = "  = (0%)" ∧
    changeStr (some prev) count ≠ changeStr none count ∧
    changeStr (some 0) 0 = changeStr none 0 ∧
    '%' ∉ (changeStr (some 0) 5).data ∧
    trendStrings [10, 0, 5, 5] =
      ["  --", "  ↓ -10 (-100%)", "  ↑ +5", "  = (0%)"] := by
  subst he
  have h1 : changeStr (some count) count = "  = (0%)" := by
    simp only [changeStr]
    rw [if_neg hp]
    simp
  have h2 : changeStr (none : Option Int) count = "  --" := rfl
  refine ⟨h1, ?_, by decide, by decide, by decide⟩
  rw [h1, h2]
  decide

/-- Witness for C8 at a concrete equal pair of counts. -/
theorem trend_rendering_amended_witness :
    changeStr (some 5) 5 = "  = (0%)" ∧
    trendStrings [10, 0, 5, 5] =
      ["  --", "  ↓ -10 (-100%)", "  ↑ +5", "  = (0%)"] :=
  ⟨(trend_rendering_amended 5 5 (by decide) rfl).1,
   (trend_rendering_amended 5 5 (by decide) rfl).2.2.2.2⟩

/-! ## Claim theorems: the check command -/

/-- Store whose single snapshot has `todo_count = 5` (C9 witness). -/
def db5 : DB := (save_snapshot emptyDB "t0" (List.replicate 5 ft0) none).1

/-- Store whose single snapshot has `todo_count = 6` (C9 counterexample). -/
def db6 : DB := (save_snapshot emptyDB "t0" (List.replicate 6 ft0) none).1

/-- C9 counterexample: with no snapshot, `check --max 5` terminates with
process exit status 1 — exactly the same exit status as the exceeded case,
so the no-snapshot condition is not distinguished by exit status. -/
theorem check_no_snapshot_exit_cex :
    check_run emptyDB 5 = .errNoSnapshots ∧
    check_run db6 5 = .failExceeded ∧
    checkExitCode (check_run emptyDB 5) = checkExitCode (check_run db6 5) ∧
    checkExitCode (check_run emptyDB 5) = 1 := by decide

/-- C9 amended: `check --max` exits 0 when the latest count is at most the
threshold (equality passes) and 1 when it strictly exceeds it; with no
snapshot it terminates in a distinguished error outcome (`NoSnapshots`),
but the process exit status of that outcome is 1, the same number as the
exceeded case. -/
theorem check_exit_status_amended (db dbE : DB) (mx : Nat) (c : Int)
    (hc : get_latest_todo_count db = some c)
    (hn : get_latest_todo_count dbE = none) :
    (c.toNat ≤ mx → check_run db mx = .pass ∧
      checkExitCode (check_run db mx) = 0) ∧
    (mx < c.toNat → check_run db mx = .failExceeded ∧
      checkExitCode (check_run db mx) = 1) ∧
    (check_run dbE mx = .errNoSnapshots ∧
      check_run dbE mx ≠ .failExceeded ∧
      checkExitCode (check_run dbE mx) = 1) := by
  have hrun : check_run db mx = if c.toNat > mx then .failExceeded else .pass := by
    unfold check_run
    rw [hc]
  have hrunE : check_run dbE mx = .errNoSnapshots := by
    unfold check_run
    rw [hn]
  refine ⟨?_, ?_, ?_, ?_, ?_⟩
  · intro h
    have hp : check_run db mx = .pass := by
      rw [hrun, if_neg (by omega : ¬ c.toNat > mx)]
    rw [hp]
    exact ⟨rfl, rfl⟩
  · intro h
    have hf : check_run db mx = .failExceeded := by
      rw [hrun, if_pos (by omega : c.toNat > mx)]
    rw [hf]
    exact ⟨rfl, rfl⟩
  · rw [hrunE]
  · rw [hrunE]
    exact fun hx => CheckOutcome.noConfusion hx
  · rw [hrunE]
    rfl

/-- Witness for C9 at concrete stores: a latest count of 5 against
threshold 5 passes with exit 0, and the empty store yields the error
outcome with exit 1. -/
theorem check_exit_status_amended_witness :
    check_run db5 5 = .pass ∧
    checkExitCode (check_run db5 5) = 0 ∧
    check_run emptyDB 5 = .errNoSnapshots ∧
    checkExitCode (check_run emptyDB 5) = 1 := by
  have h := check_exit_status_amended db5 emptyDB 5 5 (by decide) (by decide)
  exact ⟨(h.1 (by decide)).1, (h.1 (by decide)).2, h.2.2.1, h.2.2.2.2⟩

/-! ## Evaluations mirroring the unit tests of `parser.rs`

These anonymous checks validate the operational regex model against the
behaviours pinned down by the repository's own test functions. -/

example : parse_line "// TODO: fix this later" 1 =
    some ⟨1, "TODO", none, none, "fix this later"⟩ := by decide

example : parse_line "// TODO(alice): refactor this" 5 =
    some ⟨5, "TODO", some "alice", none, "refactor this"⟩ := by decide

example : parse_line "# FIXME: broken sorting see #42" 10 =
    some ⟨10, "FIXME", none, some "#42", "broken sorting see #42"⟩ := by decide

example : parse_line "/// A parsed TodoItem extracted from source code." 1 = none := by
  decide

example : parse_line "let x = TODO something" 1 = none := by decide

example : parse_line "// todo: lowercase works" 1 =
    some ⟨1, "TODO", none, none, "lowercase works"⟩ := by decide

example : parse_line "/* HACK: temporary workaround */" 3 =
    some ⟨3, "HACK", none, none, "temporary workaround */"⟩ := by decide

example : parse_line "// XXX: needs review" 1 =
    some ⟨1, "XXX", none, none, "needs review"⟩ := by decide

example : parse_line "<!-- TODO: fix layout -->" 1 =
    some ⟨1, "TODO", none, none, "fix layout -->"⟩ := by decide

end TodoTrack
